import Mathlib

/-!
Shallow embedding of the ELF relocation and memory-layout engine of the
outpost-os/barbican repository (`pyledger/outpost` and `src/barbican` trees),
together with theorems settling the frozen claims about it.

The embedded operations are translated from:
  * `src/pyledger/outpost/utils/__init__.py` (`align_to`, `pow2_round_up`),
  * `src/pyledger/outpost/_internals/gen_memory_layout.py` (`_add_app_regions`,
    `run_gen_memory_layout`),
  * `src/src/barbican/_internals/gen_memory_layout.py` (barbican `_add_app_regions`),
  * `src/pyledger/outpost/relocation/relocate.py` (`_relocate_apps`,
    `_generate_task_meta_table`),
  * `src/pyledger/outpost/relocation/task_meta.py` (`TaskHandle`, `JobFlags`,
    `TaskMeta`),
  * `src/pyledger/outpost/relocation/elfutils.py` (`AppElf.relocate`),
  * `src/pyledger/outpost/utils/memory_layout.py` (`MemoryRegion`,
    `MemoryLayout.save_as_json`).
-/

/-- `align_to(x, a) = ((x + a - 1) // a) * a` from
`src/pyledger/outpost/utils/__init__.py`. -/
def align_to (x a : Nat) : Nat := ((x + a - 1) / a) * a

/-- `pow2_round_up(x) = 1 if x == 0 else 2**math.ceil(math.log2(x))` from
`src/pyledger/outpost/utils/__init__.py`, read with exact arithmetic:
`Nat.clog 2 x` is the ceiling of the base-2 logarithm of `x` for `x > 0`.
This matches the Python for every input whose `math.log2` is unaffected by
double rounding — in particular every value pinned down by
`tests/test_pow2_utils.py` — but not everywhere: for `x = 2^k + 1` with
`k ≥ 49` the IEEE-double `log2` rounds down to exactly `k` and the Python
returns `2^k < x`, contradicting its own docstring ("Round number to the next
power of 2 boundary").  The placement proofs below rely only on positivity of
the result, which both readings satisfy. -/
def pow2_round_up (x : Nat) : Nat := if x = 0 then 1 else 2 ^ Nat.clog 2 x

theorem align_to_ge (x a : Nat) (ha : 0 < a) : x ≤ align_to x a := by
  unfold align_to
  have h1 := Nat.div_add_mod' (x + a - 1) a
  have h2 := Nat.mod_lt (x + a - 1) ha
  omega

theorem pow2_round_up_pos (x : Nat) : 0 < pow2_round_up x := by
  unfold pow2_round_up
  split
  · omega
  · exact Nat.pos_pow_of_pos _ (by omega)

/-- C8: the next-power-of-two boundary at the input `x = 2^49 + 1`, where the
Python source misbehaves.  The exact-arithmetic reading `pow2_round_up`
returns `2^50`, the unique power of two `≥ x` that the function's docstring
and unit tests promise; the Python source instead computes
`2**math.ceil(math.log2(x))` with an IEEE-double `log2`, which rounds
`log2(2^49 + 1)` down to exactly `49.0` and therefore returns
`2^49 = x − 1 < x` — not a power of two `≥ x`.  The conjuncts record that
`2^49`, the value the float computation produces, lies strictly below the
input, while the exact boundary proved here does not. -/
theorem pow2_round_up_exact_at_failing_input :
    pow2_round_up (2 ^ 49 + 1) = 2 ^ 50 ∧
    ¬ ((2 : Nat) ^ 49 + 1 ≤ 2 ^ 49) ∧
    (2 : Nat) ^ 49 + 1 ≤ 2 ^ 50 := by
  refine ⟨?_, by norm_num, by norm_num⟩
  have h1 : Nat.clog 2 (2 ^ 49 + 1) ≤ 50 :=
    (Nat.le_pow_iff_clog_le (by norm_num)).mp (by norm_num)
  have h2 : 49 < Nat.clog 2 (2 ^ 49 + 1) :=
    (Nat.pow_lt_iff_lt_clog (by norm_num)).mp (by norm_num)
  have h3 : Nat.clog 2 (2 ^ 49 + 1) = 50 := by omega
  simp only [pow2_round_up, if_neg (by norm_num : ¬ (2 ^ 49 + 1 = 0)), h3]

inductive RegionKind
  | text
  | ram
deriving DecidableEq

/-- Memory region as appended by the memory-layout planner
(`MemoryRegion(f"{app.name} text", flash_saddr, flash_size)` and the `ram`
counterpart).  The Python `MemoryRegion` encodes the kind only in the region
name suffix; the embedding carries it as an explicit tag recording which of the
two `layout.append` calls created the region. -/
structure MemoryRegion where
  name : String
  kind : RegionKind
  start_addr : Nat
  size : Nat
deriving DecidableEq

/-- Per-application inputs of the planner: `app.name`, `app.flash_size`,
`app.ram_size` as exposed by `AppElf`. -/
structure AppFootprint where
  name : String
  flash_size : Nat
  ram_size : Nat
deriving DecidableEq

/-- `_add_app_regions` from `src/pyledger/outpost/_internals/gen_memory_layout.py`:
round both footprints up to a power of two, align the running cursors to that
power of two, append one text and one ram region, and return the cursors just
past the placed regions. -/
def add_app_regions (app : AppFootprint) (slot : Nat × Nat) :
    List MemoryRegion × (Nat × Nat) :=
  let flash_size := pow2_round_up app.flash_size
  let ram_size := pow2_round_up app.ram_size
  let flash_saddr := align_to slot.1 flash_size
  let ram_saddr := align_to slot.2 ram_size
  ([⟨app.name ++ " text", .text, flash_saddr, flash_size⟩,
    ⟨app.name ++ " ram", .ram, ram_saddr, ram_size⟩],
   (flash_saddr + flash_size, ram_saddr + ram_size))

/-- Application-placement loop of `run_gen_memory_layout`
(`for app in apps: next_memory_slot = _add_app_regions(layout, app, next_memory_slot)`),
returning the regions appended to the layout, in placement order. -/
def place_apps (slot : Nat × Nat) : List AppFootprint → List MemoryRegion
  | [] => []
  | app :: rest =>
    (add_app_regions app slot).1 ++ place_apps (add_app_regions app slot).2 rest

/-- Sub-sequence of a layout consisting of the regions of one kind, in placement
order (the order used when validating non-overlap). -/
def regionsOfKind (k : RegionKind) (l : List MemoryRegion) : List MemoryRegion :=
  l.filter (fun r => r.kind == k)

theorem place_apps_cons (app : AppFootprint) (rest : List AppFootprint) (t r : Nat) :
    place_apps (t, r) (app :: rest) =
      ⟨app.name ++ " text", .text, align_to t (pow2_round_up app.flash_size),
        pow2_round_up app.flash_size⟩ ::
      ⟨app.name ++ " ram", .ram, align_to r (pow2_round_up app.ram_size),
        pow2_round_up app.ram_size⟩ ::
      place_apps (align_to t (pow2_round_up app.flash_size) + pow2_round_up app.flash_size,
                  align_to r (pow2_round_up app.ram_size) + pow2_round_up app.ram_size)
        rest := rfl

theorem regionsOfKind_cons (k : RegionKind) (reg : MemoryRegion) (l : List MemoryRegion) :
    regionsOfKind k (reg :: l) =
      if reg.kind = k then reg :: regionsOfKind k l else regionsOfKind k l := by
  by_cases h : reg.kind = k <;> simp [regionsOfKind, List.filter_cons, h]

theorem place_apps_text_start (apps : List AppFootprint) :
    ∀ t r, ∀ reg ∈ regionsOfKind .text (place_apps (t, r) apps),
      t ≤ reg.start_addr := by
  induction apps with
  | nil => intro t r reg h; simp [place_apps, regionsOfKind] at h
  | cons app rest ih =>
    intro t r reg h
    rw [place_apps_cons, regionsOfKind_cons, regionsOfKind_cons,
      if_pos rfl, if_neg (by decide : ¬ (RegionKind.ram = RegionKind.text))] at h
    rcases List.mem_cons.mp h with h | h
    · rw [h]; exact align_to_ge t _ (pow2_round_up_pos _)
    · have h1 := ih _ _ reg h
      have h2 := align_to_ge t (pow2_round_up app.flash_size) (pow2_round_up_pos _)
      omega

theorem place_apps_ram_start (apps : List AppFootprint) :
    ∀ t r, ∀ reg ∈ regionsOfKind .ram (place_apps (t, r) apps),
      r ≤ reg.start_addr := by
  induction apps with
  | nil => intro t r reg h; simp [place_apps, regionsOfKind] at h
  | cons app rest ih =>
    intro t r reg h
    rw [place_apps_cons, regionsOfKind_cons, regionsOfKind_cons,
      if_neg (by decide : ¬ (RegionKind.text = RegionKind.ram)), if_pos rfl] at h
    rcases List.mem_cons.mp h with h | h
    · rw [h]; exact align_to_ge r _ (pow2_round_up_pos _)
    · have h1 := ih _ _ reg h
      have h2 := align_to_ge r (pow2_round_up app.ram_size) (pow2_round_up_pos _)
      omega

theorem place_apps_chain (apps : List AppFootprint) (k : RegionKind) :
    ∀ t r, List.Chain' (fun a b : MemoryRegion => a.start_addr + a.size ≤ b.start_addr)
      (regionsOfKind k (place_apps (t, r) apps)) := by
  induction apps with
  | nil => intro t r; simp [place_apps, regionsOfKind]
  | cons app rest ih =>
    intro t r
    cases k with
    | text =>
      rw [place_apps_cons, regionsOfKind_cons, regionsOfKind_cons,
        if_pos rfl, if_neg (by decide : ¬ (RegionKind.ram = RegionKind.text))]
      refine List.chain'_cons'.mpr ⟨?_, ih _ _⟩
      intro y hy
      exact place_apps_text_start rest _ _ y (List.mem_of_mem_head? hy)
    | ram =>
      rw [place_apps_cons, regionsOfKind_cons, regionsOfKind_cons,
        if_neg (by decide : ¬ (RegionKind.text = RegionKind.ram)), if_pos rfl]
      refine List.chain'_cons'.mpr ⟨?_, ih _ _⟩
      intro y hy
      exact place_apps_ram_start rest _ _ y (List.mem_of_mem_head? hy)

/-- C6: for every memory layout produced by the planner's application-placement
loop from any start slot and any list of applications with positive footprints,
no two placed regions of the same kind overlap: in placement order, each
region's end (`start_addr + size`) is at most the next same-kind region's
start address. -/
theorem place_apps_no_overlap (slot : Nat × Nat) (apps : List AppFootprint)
    (hpos : ∀ a ∈ apps, 0 < a.flash_size ∧ 0 < a.ram_size) (k : RegionKind) :
    List.Chain' (fun a b : MemoryRegion => a.start_addr + a.size ≤ b.start_addr)
      (regionsOfKind k (place_apps slot apps)) := by
  obtain ⟨t, r⟩ := slot
  exact place_apps_chain apps k t r

/-- Witness for C6: three applications with positive footprints placed from the
slot (0x8000, 0x20000000). -/
theorem place_apps_no_overlap_witness :
    List.Chain' (fun a b : MemoryRegion => a.start_addr + a.size ≤ b.start_addr)
      (regionsOfKind .text (place_apps (0x8000, 0x20000000)
        [⟨"a", 3000, 700⟩, ⟨"b", 9000, 1200⟩, ⟨"c", 4096, 4096⟩])) :=
  place_apps_no_overlap (0x8000, 0x20000000)
    [⟨"a", 3000, 700⟩, ⟨"b", 9000, 1200⟩, ⟨"c", 4096, 4096⟩]
    (by decide) .text

/-- Stable insertion into a list already sorted by descending flash size:
`a` goes in front of the first element whose flash size does not exceed `a`'s,
so elements with equal keys keep their original relative order — the behaviour
of Python's stable `list.sort`. -/
def insert_desc (a : AppFootprint) : List AppFootprint → List AppFootprint
  | [] => [a]
  | b :: rest =>
    if b.flash_size ≤ a.flash_size then a :: b :: rest else b :: insert_desc a rest

/-- `apps.sort(key=lambda x: x.flash_size, reverse=True)` from `_relocate_apps`
(`src/pyledger/outpost/relocation/relocate.py`, line 40): stable sort by
descending flash footprint. -/
def sort_desc_flash : List AppFootprint → List AppFootprint
  | [] => []
  | a :: rest => insert_desc a (sort_desc_flash rest)

/-- Order in which `_relocate_apps` places applications: the input list after
its in-place descending-flash-size sort. -/
def relocate_apps_order (apps : List AppFootprint) : List AppFootprint :=
  sort_desc_flash apps

/-- Order in which `relocate_project` concatenates the per-application
task-metadata records: `_generate_task_meta_table(apps)` iterates over the very
list object that `_relocate_apps` has already sorted in place. -/
def task_meta_table_order (apps : List AppFootprint) : List AppFootprint :=
  sort_desc_flash apps

/-- C1 counterexample: for the input [a, b] where b has the larger flash
footprint, `_relocate_apps` places b first, so the placement order (and hence
the metadata-table order) differs from the caller-supplied declaration order. -/
theorem relocation_order_counterexample :
    relocate_apps_order [⟨"a", 1000, 500⟩, ⟨"b", 2000, 500⟩]
        = [⟨"b", 2000, 500⟩, ⟨"a", 1000, 500⟩] ∧
    ([⟨"b", 2000, 500⟩, ⟨"a", 1000, 500⟩] : List AppFootprint)
        ≠ [⟨"a", 1000, 500⟩, ⟨"b", 2000, 500⟩] := by
  constructor
  · rfl
  · decide

theorem place_apps_text_names (apps : List AppFootprint) :
    ∀ slot, (regionsOfKind .text (place_apps slot apps)).map MemoryRegion.name
      = apps.map (fun a => a.name ++ " text") := by
  induction apps with
  | nil => intro slot; simp [place_apps, regionsOfKind]
  | cons app rest ih =>
    intro ⟨t, r⟩
    rw [place_apps_cons, regionsOfKind_cons, regionsOfKind_cons,
      if_pos rfl, if_neg (by decide : ¬ (RegionKind.ram = RegionKind.text))]
    simp only [List.map_cons, List.map, ih]

theorem place_apps_ram_names (apps : List AppFootprint) :
    ∀ slot, (regionsOfKind .ram (place_apps slot apps)).map MemoryRegion.name
      = apps.map (fun a => a.name ++ " ram") := by
  induction apps with
  | nil => intro slot; simp [place_apps, regionsOfKind]
  | cons app rest ih =>
    intro ⟨t, r⟩
    rw [place_apps_cons, regionsOfKind_cons, regionsOfKind_cons,
      if_neg (by decide : ¬ (RegionKind.text = RegionKind.ram)), if_pos rfl]
    simp only [List.map_cons, List.map, ih]

/-- C1 amended: the layout planner (`run_gen_memory_layout`) processes the
applications in the caller-supplied input order (its region list follows the
input order), while the relocation pipeline (`_relocate_apps`) re-sorts the
application list in place by descending flash footprint before placing; the
metadata table is then concatenated in that same sorted order.  Placement order
and metadata-concatenation order therefore agree with each other, but they are
the descending-flash-size order, not the declaration order. -/
theorem relocation_order_amended (apps : List AppFootprint) (slot : Nat × Nat) :
    task_meta_table_order apps = relocate_apps_order apps ∧
    (regionsOfKind .text (place_apps slot apps)).map MemoryRegion.name
      = apps.map (fun a => a.name ++ " text") ∧
    (regionsOfKind .ram (place_apps slot apps)).map MemoryRegion.name
      = apps.map (fun a => a.name ++ " ram") :=
  ⟨rfl, place_apps_text_names apps slot, place_apps_ram_names apps slot⟩

inductive OverflowKind
  | flash
  | ram
deriving DecidableEq

/-- Barbican `_add_app_regions` from
`src/src/barbican/_internals/gen_memory_layout.py`: footprints and cursors are
aligned to 32 bytes, and placement raises "task code region overflow"
(respectively the ram overflow error) when
`flash_saddr + flash_size >= code_limit` (respectively
`ram_saddr + ram_size >= ram_limit`); otherwise the two regions are appended
and the cursors advance past them. -/
def barbican_add_app_regions (app : AppFootprint) (slot : Nat × Nat)
    (code_limit ram_limit : Nat) :
    Except OverflowKind (List MemoryRegion × (Nat × Nat)) :=
  let flash_size := align_to app.flash_size 32
  let ram_size := align_to app.ram_size 32
  let flash_saddr := align_to slot.1 32
  let ram_saddr := align_to slot.2 32
  if code_limit ≤ flash_saddr + flash_size then .error .flash
  else if ram_limit ≤ ram_saddr + ram_size then .error .ram
  else .ok ([⟨app.name, .text, flash_saddr, flash_size⟩,
             ⟨app.name, .ram, ram_saddr, ram_size⟩],
            (flash_saddr + flash_size, ram_saddr + ram_size))

/-- C7 counterexample: with the applications' flash band ceiling at 64 and a
region whose aligned end is exactly 64, the claim says the placement succeeds,
but the code raises the flash overflow error (its check is `>=`, not `>`). -/
theorem region_overflow_counterexample :
    barbican_add_app_regions ⟨"a", 64, 32⟩ (0, 0) 64 1000 = .error .flash ∧
    ¬ (64 : Nat) > 64 := by
  constructor
  · rfl
  · omega

/-- C7 amended: placing an application fails with the region-overflow error
naming the affected band if and only if the placed region's end (aligned start
plus rounded size) is greater than **or equal to** the configured ceiling; a
placement whose end exactly equals the ceiling also fails.  Flash is checked
first, so the ram error is reported only when the flash band fits. -/
theorem region_overflow_amended (app : AppFootprint) (slot : Nat × Nat)
    (code_limit ram_limit : Nat) :
    (barbican_add_app_regions app slot code_limit ram_limit = .error .flash ↔
      code_limit ≤ align_to slot.1 32 + align_to app.flash_size 32) ∧
    (barbican_add_app_regions app slot code_limit ram_limit = .error .ram ↔
      (align_to slot.1 32 + align_to app.flash_size 32 < code_limit ∧
        ram_limit ≤ align_to slot.2 32 + align_to app.ram_size 32)) ∧
    ((∃ res, barbican_add_app_regions app slot code_limit ram_limit = .ok res) ↔
      (align_to slot.1 32 + align_to app.flash_size 32 < code_limit ∧
        align_to slot.2 32 + align_to app.ram_size 32 < ram_limit)) := by
  unfold barbican_add_app_regions
  by_cases h1 : code_limit ≤ align_to slot.1 32 + align_to app.flash_size 32
  · simp [h1]
  · by_cases h2 : ram_limit ≤ align_to slot.2 32 + align_to app.ram_size 32
    · simp [h1, h2]
      omega
    · simp [h1, h2]
      omega

/-- Exit modes of `JobFlags` (`EXIT_MODES` in
`src/pyledger/outpost/relocation/task_meta.py`). -/
inductive ExitMode
  | norestart
  | restart
  | panic
  | periodic
  | reset
deriving DecidableEq

/-- Numeric codes `JOB_FLAG_EXIT_*` associated to the exit modes. -/
def ExitMode.code : ExitMode → Nat
  | .norestart => 0
  | .restart => 1
  | .panic => 2
  | .periodic => 3
  | .reset => 4

/-- `TaskHandle._id_shift = 13`. -/
def id_shift : Nat := 13

/-- `TaskHandle._id_mask = 0xffff << 13`. -/
def id_mask : Nat := 0xffff <<< 13

/-- `TaskHandle.id` getter: `(raw & mask) >> shift`. -/
def taskhandle_get_id (raw : Nat) : Nat := (raw &&& id_mask) >>> id_shift

/-- `TaskHandle.id` setter: `raw = raw & ~mask; raw = raw | (id << shift & mask)`.
Python's `raw & ~mask` on the 32-bit `raw` equals `raw &&& (0xffffffff ^^^ mask)`. -/
def taskhandle_set_id (raw id : Nat) : Nat :=
  (raw &&& (0xffffffff ^^^ id_mask)) ||| ((id <<< id_shift) &&& id_mask)

/-- `JobFlags.autostart_mode` getter: `raw & 0x1 == JOB_FLAG_START_AUTO`. -/
def jobflags_get_autostart (raw : Nat) : Bool := raw &&& 0x1 == 1

/-- `JobFlags.autostart_mode` setter: `raw = raw & 0xfffffffe; raw = raw | (mode & 0x1)`
with mode 1 for auto and 0 for manual. -/
def jobflags_set_autostart (raw : Nat) (auto : Bool) : Nat :=
  (raw &&& 0xfffffffe) ||| ((if auto then 1 else 0) &&& 0x1)

/-- `JobFlags.exit_mode` getter: `(raw >> 1) & 0x7`. -/
def jobflags_get_exit_mode (raw : Nat) : Nat := (raw >>> 1) &&& 0x7

/-- `JobFlags.exit_mode` setter: `raw = raw & 0xfffffff1; raw = raw | ((mode & 0x7) << 1)`. -/
def jobflags_set_exit_mode (raw : Nat) (mode : ExitMode) : Nat :=
  (raw &&& 0xfffffff1) ||| ((mode.code &&& 0x7) <<< 1)

theorem testBit_of_ge_32 (x i : Nat) (hx : x < 2 ^ 32) (hi : 32 ≤ i) :
    x.testBit i = false :=
  Nat.testBit_lt_two_pow (lt_of_lt_of_le hx (Nat.pow_le_pow_right (by omega) hi))

theorem testBit_id_mask (i : Nat) :
    id_mask.testBit i = decide (13 ≤ i ∧ i < 29) := by
  rcases Nat.lt_or_ge i 32 with h | h
  · interval_cases i <;> decide
  · rw [testBit_of_ge_32 _ _ (by decide) h]
    simp
    omega

theorem testBit_clear_id_mask (i : Nat) :
    ((0xffffffff : Nat) ^^^ id_mask).testBit i
      = decide (i < 13 ∨ (29 ≤ i ∧ i < 32)) := by
  rcases Nat.lt_or_ge i 32 with h | h
  · interval_cases i <;> decide
  · rw [testBit_of_ge_32 _ _ (by decide) h]
    simp
    omega

theorem testBit_fffffffe (i : Nat) :
    (0xfffffffe : Nat).testBit i = decide (1 ≤ i ∧ i < 32) := by
  rcases Nat.lt_or_ge i 32 with h | h
  · interval_cases i <;> decide
  · rw [testBit_of_ge_32 _ _ (by norm_num) h]
    simp
    omega

theorem testBit_fffffff1 (i : Nat) :
    (0xfffffff1 : Nat).testBit i = decide (i = 0 ∨ (4 ≤ i ∧ i < 32)) := by
  rcases Nat.lt_or_ge i 32 with h | h
  · interval_cases i <;> decide
  · rw [testBit_of_ge_32 _ _ (by norm_num) h]
    simp
    omega

theorem exit_mode_code_lt_8 (mode : ExitMode) : mode.code < 8 := by
  cases mode <;> decide

theorem get_set_id (raw id : Nat) (hid : id ≤ 0xffff) :
    taskhandle_get_id (taskhandle_set_id raw id) = id := by
  apply Nat.eq_of_testBit_eq
  intro i
  simp only [taskhandle_get_id, taskhandle_set_id, id_shift, Nat.testBit_shiftRight,
    Nat.testBit_land, Nat.testBit_lor, Nat.testBit_shiftLeft, testBit_id_mask,
    testBit_clear_id_mask, Nat.add_sub_cancel_left, ge_iff_le]
  rcases Nat.lt_or_ge i 16 with h16 | h16
  · simp [show (13 : Nat) ≤ 13 + i by omega, show 13 + i < 29 by omega,
      show ¬(13 + i < 13) by omega, show ¬(29 ≤ 13 + i) by omega]
  · have hbit : id.testBit i = false :=
      Nat.testBit_lt_two_pow
        (Nat.lt_of_lt_of_le (by omega) (Nat.pow_le_pow_right (by omega) h16))
    simp [show ¬(13 + i < 29) by omega, hbit]

theorem set_id_frame (raw id : Nat) (hraw : raw < 2 ^ 32) :
    ∀ i, i < 13 ∨ 28 < i → (taskhandle_set_id raw id).testBit i = raw.testBit i := by
  intro i hi
  simp only [taskhandle_set_id, id_shift, Nat.testBit_lor, Nat.testBit_land,
    Nat.testBit_shiftLeft, testBit_id_mask, testBit_clear_id_mask, ge_iff_le]
  rcases Nat.lt_or_ge i 32 with h32 | h32
  · rcases hi with hi | hi
    · simp [show i < 13 ∨ (29 ≤ i ∧ i < 32) by omega, show ¬(13 ≤ i ∧ i < 29) by omega]
    · simp [show i < 13 ∨ (29 ≤ i ∧ i < 32) by omega, show ¬(13 ≤ i ∧ i < 29) by omega]
  · rw [testBit_of_ge_32 raw i hraw h32]
    simp [show ¬(i < 13 ∨ (29 ≤ i ∧ i < 32)) by omega, show ¬(13 ≤ i ∧ i < 29) by omega]

theorem testBit_one_ne_zero (i : Nat) (h0 : i ≠ 0) : (1 : Nat).testBit i = false :=
  Nat.testBit_lt_two_pow (show 1 < 2 ^ i by
    have := Nat.one_lt_two_pow_iff.mpr h0; omega)

theorem get_set_autostart (raw : Nat) (auto : Bool) :
    jobflags_get_autostart (jobflags_set_autostart raw auto) = auto := by
  cases auto with
  | true =>
    have h : jobflags_set_autostart raw true &&& 1 = 1 := by
      apply Nat.eq_of_testBit_eq
      intro i
      simp only [jobflags_set_autostart, if_pos rfl, Nat.testBit_land, Nat.testBit_lor,
        testBit_fffffffe]
      rcases eq_or_ne i 0 with h0 | h0
      · subst h0; simp
      · simp [testBit_one_ne_zero i h0]
    simp [jobflags_get_autostart, h]
  | false =>
    have h : jobflags_set_autostart raw false &&& 1 = 0 := by
      apply Nat.eq_of_testBit_eq
      intro i
      simp only [jobflags_set_autostart, if_neg Bool.false_ne_true, Nat.testBit_land,
        Nat.testBit_lor, testBit_fffffffe]
      rcases eq_or_ne i 0 with h0 | h0
      · subst h0; simp
      · simp [testBit_one_ne_zero i h0]
    simp [jobflags_get_autostart, h]

theorem set_autostart_frame (raw : Nat) (auto : Bool) (hraw : raw < 2 ^ 32) :
    ∀ i, i ≠ 0 → (jobflags_set_autostart raw auto).testBit i = raw.testBit i := by
  intro i hi
  have hbit : (if auto = true then (1 : Nat) else 0).testBit i = false := by
    cases auto
    · simp
    · simp [testBit_one_ne_zero i hi]
  simp only [jobflags_set_autostart, Nat.testBit_lor, Nat.testBit_land, testBit_fffffffe]
  rcases Nat.lt_or_ge i 32 with h32 | h32
  · simp [hbit, show 1 ≤ i by omega, h32]
  · rw [testBit_of_ge_32 raw i hraw h32]
    simp [hbit, show ¬(i < 32) by omega]

theorem get_set_exit_mode (raw : Nat) (mode : ExitMode) :
    jobflags_get_exit_mode (jobflags_set_exit_mode raw mode) = mode.code := by
  apply Nat.eq_of_testBit_eq
  intro i
  have hm : mode.code &&& 7 = mode.code := by cases mode <;> decide
  simp only [jobflags_get_exit_mode, jobflags_set_exit_mode, hm,
    Nat.testBit_shiftRight, Nat.testBit_land, Nat.testBit_lor, Nat.testBit_shiftLeft,
    testBit_fffffff1, ge_iff_le, Nat.add_sub_cancel_left]
  have h7 : (7 : Nat).testBit i = decide (i < 3) := by
    rw [show (7 : Nat) = 2 ^ 3 - 1 by norm_num, Nat.testBit_two_pow_sub_one]
  rw [h7]
  rcases Nat.lt_or_ge i 3 with h3 | h3
  · simp [show ¬(4 ≤ 1 + i) by omega, show (1 : Nat) ≤ 1 + i by omega, h3]
  · have hbit : mode.code.testBit i = false := by
      apply Nat.testBit_lt_two_pow
      have h8 : (8 : Nat) ≤ 2 ^ i := by
        calc (8 : Nat) = 2 ^ 3 := by norm_num
        _ ≤ 2 ^ i := Nat.pow_le_pow_right (by omega) h3
      exact Nat.lt_of_lt_of_le (exit_mode_code_lt_8 mode) h8
    simp [hbit, show ¬(i < 3) by omega]

theorem set_exit_mode_frame (raw : Nat) (mode : ExitMode) (hraw : raw < 2 ^ 32) :
    ∀ i, i = 0 ∨ 3 < i →
      (jobflags_set_exit_mode raw mode).testBit i = raw.testBit i := by
  intro i hi
  have hm : mode.code &&& 7 = mode.code := by cases mode <;> decide
  simp only [jobflags_set_exit_mode, hm, Nat.testBit_lor, Nat.testBit_land,
    Nat.testBit_shiftLeft, testBit_fffffff1, ge_iff_le]
  rcases hi with hi | hi
  · subst hi
    simp
  · have hbit : mode.code.testBit (i - 1) = false := by
      apply Nat.testBit_lt_two_pow
      have h8 : (8 : Nat) ≤ 2 ^ (i - 1) := by
        calc (8 : Nat) = 2 ^ 3 := by norm_num
        _ ≤ 2 ^ (i - 1) := Nat.pow_le_pow_right (by omega) (show 3 ≤ i - 1 by omega)
      exact Nat.lt_of_lt_of_le (exit_mode_code_lt_8 mode) h8
    rcases Nat.lt_or_ge i 32 with h32 | h32
    · simp [show 4 ≤ i by omega, h32, hbit]
    · rw [testBit_of_ge_32 raw i hraw h32]
      simp [show ¬(i < 32) by omega, hbit]

/-- C5: the bitfield codecs round-trip and are independent.  For every 16-bit
`id`, reading `TaskHandle.id` after setting it returns `id`, and the setter
leaves every bit outside positions 13..28 of the 32-bit raw value unchanged.
For `JobFlags`, reading `autostart_mode` (bit 0) and `exit_mode`
(bits 3..1) after setting them returns the value set, and each setter leaves
every other bit of the raw value unchanged. -/
theorem bitfield_codecs (raw : Nat) (hraw : raw < 2 ^ 32) (id : Nat)
    (hid : id ≤ 0xffff) (auto : Bool) (mode : ExitMode) :
    taskhandle_get_id (taskhandle_set_id raw id) = id ∧
    (∀ i, i < 13 ∨ 28 < i → (taskhandle_set_id raw id).testBit i = raw.testBit i) ∧
    jobflags_get_autostart (jobflags_set_autostart raw auto) = auto ∧
    (∀ i, i ≠ 0 → (jobflags_set_autostart raw auto).testBit i = raw.testBit i) ∧
    jobflags_get_exit_mode (jobflags_set_exit_mode raw mode) = mode.code ∧
    (∀ i, i = 0 ∨ 3 < i → (jobflags_set_exit_mode raw mode).testBit i = raw.testBit i) :=
  ⟨get_set_id raw id hid, set_id_frame raw id hraw,
   get_set_autostart raw auto, set_autostart_frame raw auto hraw,
   get_set_exit_mode raw mode, set_exit_mode_frame raw mode hraw⟩

/-- Witness for C5 at raw value 0x12345678, id 0xabc, autostart true, exit
mode panic. -/
theorem bitfield_codecs_witness :
    taskhandle_get_id (taskhandle_set_id 0x12345678 0xabc) = 0xabc ∧
    (taskhandle_set_id 0x12345678 0xabc).testBit 5 = (0x12345678 : Nat).testBit 5 ∧
    jobflags_get_autostart (jobflags_set_autostart 0x12345678 true) = true ∧
    (jobflags_set_autostart 0x12345678 true).testBit 7 = (0x12345678 : Nat).testBit 7 ∧
    jobflags_get_exit_mode (jobflags_set_exit_mode 0x12345678 .panic) = ExitMode.code .panic ∧
    (jobflags_set_exit_mode 0x12345678 .panic).testBit 9 = (0x12345678 : Nat).testBit 9 := by
  have h := bitfield_codecs 0x12345678 (by norm_num) 0xabc (by norm_num) true .panic
  exact ⟨h.1, h.2.1 5 (Or.inl (by norm_num)), h.2.2.1,
    h.2.2.2.1 7 (by norm_num), h.2.2.2.2.1,
    h.2.2.2.2.2 9 (Or.inr (by norm_num))⟩

/-- Little-endian encoding of a 16-bit value, as `cstruct` lays out a
`uint16_t` field under `LITTLE_ENDIAN` byte order. -/
def le2 (x : Nat) : List Nat := [x % 256, x / 256 % 256]

/-- Little-endian encoding of a 32-bit value (`uint32_t`). -/
def le4 (x : Nat) : List Nat :=
  [x % 256, x / 256 % 256, x / 65536 % 256, x / 16777216 % 256]

/-- Little-endian encoding of a 64-bit value (`uint64_t`). -/
def le8 (x : Nat) : List Nat :=
  [x % 256, x / 256 % 256, x / 65536 % 256, x / 16777216 % 256,
   x / 4294967296 % 256, x / 1099511627776 % 256, x / 281474976710656 % 256,
   x / 72057594037927936 % 256]

/-- Little-endian encoding of a `uint32_t[4]` array field. -/
def words4 (l : List Nat) : List Nat :=
  le4 (l.getD 0 0) ++ le4 (l.getD 1 0) ++ le4 (l.getD 2 0) ++ le4 (l.getD 3 0)

/-- Encoding of a `uint8_t[32]` array field. -/
def bytes32 (l : List Nat) : List Nat :=
  [l.getD 0 0 % 256, l.getD 1 0 % 256, l.getD 2 0 % 256, l.getD 3 0 % 256,
   l.getD 4 0 % 256, l.getD 5 0 % 256, l.getD 6 0 % 256, l.getD 7 0 % 256,
   l.getD 8 0 % 256, l.getD 9 0 % 256, l.getD 10 0 % 256, l.getD 11 0 % 256,
   l.getD 12 0 % 256, l.getD 13 0 % 256, l.getD 14 0 % 256, l.getD 15 0 % 256,
   l.getD 16 0 % 256, l.getD 17 0 % 256, l.getD 18 0 % 256, l.getD 19 0 % 256,
   l.getD 20 0 % 256, l.getD 21 0 % 256, l.getD 22 0 % 256, l.getD 23 0 % 256,
   l.getD 24 0 % 256, l.getD 25 0 % 256, l.getD 26 0 % 256, l.getD 27 0 % 256,
   l.getD 28 0 % 256, l.getD 29 0 % 256, l.getD 30 0 % 256, l.getD 31 0 % 256]

/-- `TaskMeta` record from `src/pyledger/outpost/relocation/task_meta.py`.
The fields are the named (non-padding) fields of the `cstruct` definition, in
declaration order; `handle` and `flags` hold the raw `uint32_t` of the nested
`taskh_t` / `job_flags_t` structs.  The reserved padding fields (`pad1` ..
`pad6`) are zero-initialised by `cstruct` and never assigned anywhere in the
codebase, so `pack` below emits them as constant zero bytes. -/
structure TaskMeta where
  magic : Nat
  version : Nat
  handle : Nat
  priority : Nat
  quantum : Nat
  capabilities : Nat
  flags : Nat
  domain : Nat
  s_text : Nat
  text_size : Nat
  s_got : Nat
  got_size : Nat
  rodata_size : Nat
  data_size : Nat
  bss_size : Nat
  heap_size : Nat
  s_svcexchange : Nat
  stack_size : Nat
  entrypoint_offset : Nat
  finalize_offset : Nat
  num_shm : Nat
  shms : List Nat
  num_dev : Nat
  devs : List Nat
  num_dma : Nat
  dmas : List Nat
  task_hmac : List Nat
  metadata_hmac : List Nat
deriving DecidableEq

/-- Well-formedness of a `TaskMeta` record: every field fits the width of its
`cstruct` declaration (the invariant `cstruct` maintains for values stored in
the struct memory). -/
def TaskMeta.WF (m : TaskMeta) : Prop :=
  m.magic < 2 ^ 64 ∧ m.version < 2 ^ 32 ∧ m.handle < 2 ^ 32 ∧
  m.priority < 2 ^ 8 ∧ m.quantum < 2 ^ 8 ∧ m.capabilities < 2 ^ 32 ∧
  m.flags < 2 ^ 32 ∧ m.domain < 2 ^ 8 ∧ m.s_text < 2 ^ 32 ∧
  m.text_size < 2 ^ 32 ∧ m.s_got < 2 ^ 32 ∧ m.got_size < 2 ^ 32 ∧
  m.rodata_size < 2 ^ 32 ∧ m.data_size < 2 ^ 32 ∧ m.bss_size < 2 ^ 32 ∧
  m.heap_size < 2 ^ 32 ∧ m.s_svcexchange < 2 ^ 32 ∧ m.stack_size < 2 ^ 16 ∧
  m.entrypoint_offset < 2 ^ 16 ∧ m.finalize_offset < 2 ^ 16 ∧
  m.num_shm < 2 ^ 8 ∧ m.shms.length = 4 ∧ (∀ w ∈ m.shms, w < 2 ^ 32) ∧
  m.num_dev < 2 ^ 8 ∧ m.devs.length = 4 ∧ (∀ w ∈ m.devs, w < 2 ^ 32) ∧
  m.num_dma < 2 ^ 8 ∧ m.dmas.length = 4 ∧ (∀ w ∈ m.dmas, w < 2 ^ 32) ∧
  m.task_hmac.length = 32 ∧ (∀ b ∈ m.task_hmac, b < 2 ^ 8) ∧
  m.metadata_hmac.length = 32 ∧ (∀ b ∈ m.metadata_hmac, b < 2 ^ 8)

instance (m : TaskMeta) : Decidable m.WF := by
  unfold TaskMeta.WF
  infer_instance

/-- `TaskMeta.pack()`: the little-endian `cstruct` serialization of the record,
fields in declaration order with the explicit padding fields `pad1[2]`,
`pad2[3]`, `pad3`, `pad4[3]`, `pad5[3]`, `pad6[4]` emitted as zero bytes at
their declared offsets (18, 29, 75, 93, 113 and 196). -/
def TaskMeta.pack (m : TaskMeta) : List Nat :=
  le8 m.magic ++ le4 m.version ++ le4 m.handle ++
  [m.priority % 256] ++ [m.quantum % 256] ++ [0, 0] ++
  le4 m.capabilities ++ le4 m.flags ++ [m.domain % 256] ++ [0, 0, 0] ++
  le4 m.s_text ++ le4 m.text_size ++ le4 m.s_got ++ le4 m.got_size ++
  le4 m.rodata_size ++ le4 m.data_size ++ le4 m.bss_size ++ le4 m.heap_size ++
  le4 m.s_svcexchange ++ le2 m.stack_size ++ le2 m.entrypoint_offset ++
  le2 m.finalize_offset ++ [m.num_shm % 256] ++ [0] ++ words4 m.shms ++
  [m.num_dev % 256] ++ [0, 0, 0] ++ words4 m.devs ++
  [m.num_dma % 256] ++ [0, 0, 0] ++ words4 m.dmas ++
  bytes32 m.task_hmac ++ bytes32 m.metadata_hmac ++ [0, 0, 0, 0]

/-- Little-endian 16-bit read at offset `o`. -/
def rd2 (b : List Nat) (o : Nat) : Nat := b.getD o 0 + 256 * b.getD (o + 1) 0

/-- Little-endian 32-bit read at offset `o`. -/
def rd4 (b : List Nat) (o : Nat) : Nat :=
  b.getD o 0 + 256 * b.getD (o + 1) 0 + 65536 * b.getD (o + 2) 0 +
    16777216 * b.getD (o + 3) 0

/-- Little-endian 64-bit read at offset `o`. -/
def rd8 (b : List Nat) (o : Nat) : Nat := rd4 b o + 4294967296 * rd4 b (o + 4)

/-- `TaskMeta.unpack(bytes)`: rejects a buffer shorter than the fixed 200-byte
record size (`cstruct` raises on a truncated buffer), otherwise reads every
field back from its declared offset. -/
def TaskMeta.unpack (b : List Nat) : Option TaskMeta :=
  if b.length < 200 then none
  else some
    { magic := rd8 b 0
      version := rd4 b 8
      handle := rd4 b 12
      priority := b.getD 16 0
      quantum := b.getD 17 0
      capabilities := rd4 b 20
      flags := rd4 b 24
      domain := b.getD 28 0
      s_text := rd4 b 32
      text_size := rd4 b 36
      s_got := rd4 b 40
      got_size := rd4 b 44
      rodata_size := rd4 b 48
      data_size := rd4 b 52
      bss_size := rd4 b 56
      heap_size := rd4 b 60
      s_svcexchange := rd4 b 64
      stack_size := rd2 b 68
      entrypoint_offset := rd2 b 70
      finalize_offset := rd2 b 72
      num_shm := b.getD 74 0
      shms := [rd4 b 76, rd4 b 80, rd4 b 84, rd4 b 88]
      num_dev := b.getD 92 0
      devs := [rd4 b 96, rd4 b 100, rd4 b 104, rd4 b 108]
      num_dma := b.getD 112 0
      dmas := [rd4 b 116, rd4 b 120, rd4 b 124, rd4 b 128]
      task_hmac :=
        [b.getD 132 0, b.getD 133 0, b.getD 134 0, b.getD 135 0,
         b.getD 136 0, b.getD 137 0, b.getD 138 0, b.getD 139 0,
         b.getD 140 0, b.getD 141 0, b.getD 142 0, b.getD 143 0,
         b.getD 144 0, b.getD 145 0, b.getD 146 0, b.getD 147 0,
         b.getD 148 0, b.getD 149 0, b.getD 150 0, b.getD 151 0,
         b.getD 152 0, b.getD 153 0, b.getD 154 0, b.getD 155 0,
         b.getD 156 0, b.getD 157 0, b.getD 158 0, b.getD 159 0,
         b.getD 160 0, b.getD 161 0, b.getD 162 0, b.getD 163 0]
      metadata_hmac :=
        [b.getD 164 0, b.getD 165 0, b.getD 166 0, b.getD 167 0,
         b.getD 168 0, b.getD 169 0, b.getD 170 0, b.getD 171 0,
         b.getD 172 0, b.getD 173 0, b.getD 174 0, b.getD 175 0,
         b.getD 176 0, b.getD 177 0, b.getD 178 0, b.getD 179 0,
         b.getD 180 0, b.getD 181 0, b.getD 182 0, b.getD 183 0,
         b.getD 184 0, b.getD 185 0, b.getD 186 0, b.getD 187 0,
         b.getD 188 0, b.getD 189 0, b.getD 190 0, b.getD 191 0,
         b.getD 192 0, b.getD 193 0, b.getD 194 0, b.getD 195 0] }

set_option maxRecDepth 4096 in
theorem pack_length (m : TaskMeta) : (TaskMeta.pack m).length = 200 := by
  simp [TaskMeta.pack, le8, le4, le2, words4, bytes32]

/-- Offsets of the reserved padding bytes `pad1[2]`, `pad2[3]`, `pad3`,
`pad4[3]`, `pad5[3]`, `pad6[4]` inside a packed record. -/
def pad_offsets : List Nat :=
  [18, 19, 29, 30, 31, 75, 93, 94, 95, 113, 114, 115, 196, 197, 198, 199]

theorem le2_rd (x : Nat) (hx : x < 2 ^ 16) :
    x % 256 + 256 * (x / 256 % 256) = x := by omega

theorem le4_rd (x : Nat) (hx : x < 2 ^ 32) :
    x % 256 + 256 * (x / 256 % 256) + 65536 * (x / 65536 % 256) +
      16777216 * (x / 16777216 % 256) = x := by omega

theorem le8_rd (x : Nat) (hx : x < 2 ^ 64) :
    x % 256 + 256 * (x / 256 % 256) + 65536 * (x / 65536 % 256) +
      16777216 * (x / 16777216 % 256) +
    4294967296 * (x / 4294967296 % 256 + 256 * (x / 1099511627776 % 256) +
      65536 * (x / 281474976710656 % 256) +
      16777216 * (x / 72057594037927936 % 256)) = x := by omega

theorem getD_lt (l : List Nat) (c i : Nat) (hc : 0 < c) (hl : ∀ w ∈ l, w < c) :
    l.getD i 0 < c := by
  rcases Nat.lt_or_ge i l.length with h | h
  · rw [List.getD_eq_getElem l 0 h]
    exact hl _ (l.getElem_mem h)
  · rw [List.getD_eq_default l 0 h]
    exact hc

theorem list4_eq (l : List Nat) (h : l.length = 4) :
    l = [l.getD 0 0, l.getD 1 0, l.getD 2 0, l.getD 3 0] := by
  rcases l with _ | ⟨a, _ | ⟨b, _ | ⟨c, _ | ⟨d, _ | ⟨e, rest⟩⟩⟩⟩⟩
  · simp at h
  · simp at h
  · simp at h
  · simp at h
  · rfl
  · simp at h

theorem words4_rd (l : List Nat) (hlen : l.length = 4) (hw : ∀ w ∈ l, w < 2 ^ 32) :
    [l.getD 0 0 % 256 + 256 * (l.getD 0 0 / 256 % 256) +
       65536 * (l.getD 0 0 / 65536 % 256) + 16777216 * (l.getD 0 0 / 16777216 % 256),
     l.getD 1 0 % 256 + 256 * (l.getD 1 0 / 256 % 256) +
       65536 * (l.getD 1 0 / 65536 % 256) + 16777216 * (l.getD 1 0 / 16777216 % 256),
     l.getD 2 0 % 256 + 256 * (l.getD 2 0 / 256 % 256) +
       65536 * (l.getD 2 0 / 65536 % 256) + 16777216 * (l.getD 2 0 / 16777216 % 256),
     l.getD 3 0 % 256 + 256 * (l.getD 3 0 / 256 % 256) +
       65536 * (l.getD 3 0 / 65536 % 256) + 16777216 * (l.getD 3 0 / 16777216 % 256)]
      = l := by
  rw [le4_rd _ (getD_lt l _ 0 (by norm_num) hw), le4_rd _ (getD_lt l _ 1 (by norm_num) hw),
    le4_rd _ (getD_lt l _ 2 (by norm_num) hw), le4_rd _ (getD_lt l _ 3 (by norm_num) hw)]
  exact (list4_eq l hlen).symm

theorem list_getD_self (l : List Nat) :
    (List.range l.length).map (fun i => l.getD i 0) = l := by
  apply List.ext_getElem
  · simp
  · intro n h1 h2
    rw [List.getElem_map, List.getElem_range, List.getD_eq_getElem l 0 h2]

theorem bytes32_rd (l : List Nat) (hlen : l.length = 32) (hb : ∀ w ∈ l, w < 2 ^ 8) :
    [l.getD 0 0 % 256, l.getD 1 0 % 256, l.getD 2 0 % 256, l.getD 3 0 % 256,
     l.getD 4 0 % 256, l.getD 5 0 % 256, l.getD 6 0 % 256, l.getD 7 0 % 256,
     l.getD 8 0 % 256, l.getD 9 0 % 256, l.getD 10 0 % 256, l.getD 11 0 % 256,
     l.getD 12 0 % 256, l.getD 13 0 % 256, l.getD 14 0 % 256, l.getD 15 0 % 256,
     l.getD 16 0 % 256, l.getD 17 0 % 256, l.getD 18 0 % 256, l.getD 19 0 % 256,
     l.getD 20 0 % 256, l.getD 21 0 % 256, l.getD 22 0 % 256, l.getD 23 0 % 256,
     l.getD 24 0 % 256, l.getD 25 0 % 256, l.getD 26 0 % 256, l.getD 27 0 % 256,
     l.getD 28 0 % 256, l.getD 29 0 % 256, l.getD 30 0 % 256, l.getD 31 0 % 256]
      = l := by
  have h : ∀ i, l.getD i 0 % 256 = l.getD i 0 := fun i =>
    Nat.mod_eq_of_lt (getD_lt l 256 i (by norm_num) hb)
  have heq : ([l.getD 0 0 % 256, l.getD 1 0 % 256, l.getD 2 0 % 256, l.getD 3 0 % 256,
     l.getD 4 0 % 256, l.getD 5 0 % 256, l.getD 6 0 % 256, l.getD 7 0 % 256,
     l.getD 8 0 % 256, l.getD 9 0 % 256, l.getD 10 0 % 256, l.getD 11 0 % 256,
     l.getD 12 0 % 256, l.getD 13 0 % 256, l.getD 14 0 % 256, l.getD 15 0 % 256,
     l.getD 16 0 % 256, l.getD 17 0 % 256, l.getD 18 0 % 256, l.getD 19 0 % 256,
     l.getD 20 0 % 256, l.getD 21 0 % 256, l.getD 22 0 % 256, l.getD 23 0 % 256,
     l.getD 24 0 % 256, l.getD 25 0 % 256, l.getD 26 0 % 256, l.getD 27 0 % 256,
     l.getD 28 0 % 256, l.getD 29 0 % 256, l.getD 30 0 % 256, l.getD 31 0 % 256] : List Nat)
      = (List.range 32).map (fun i => l.getD i 0 % 256) := by rfl
  rw [heq, List.map_congr_left (fun i _ => h i),
    show (32 : Nat) = l.length from hlen.symm, list_getD_self]

set_option maxHeartbeats 2000000 in
set_option maxRecDepth 8192 in
theorem unpack_pack (m : TaskMeta) (hm : m.WF) :
    TaskMeta.unpack (TaskMeta.pack m) = some m := by
  obtain ⟨magic, version, handle, priority, quantum, capabilities, flags, domain,
    s_text, text_size, s_got, got_size, rodata_size, data_size, bss_size,
    heap_size, s_svcexchange, stack_size, entrypoint_offset, finalize_offset,
    num_shm, shms, num_dev, devs, num_dma, dmas, task_hmac, metadata_hmac⟩ := m
  obtain ⟨h1, h2, h3, h4, h5, h6, h7, h8, h9, h10, h11, h12, h13, h14, h15, h16,
    h17, h18, h19, h20, h21, h22, h23, h24, h25, h26, h27, h28, h29, h30, h31,
    h32, h33⟩ := hm
  unfold TaskMeta.unpack
  rw [if_neg (by rw [pack_length]; omega)]
  simp only [TaskMeta.pack, le8, le4, le2, words4, bytes32, List.cons_append,
    List.nil_append]
  refine congrArg some ?_
  rw [TaskMeta.mk.injEq]
  exact ⟨le8_rd magic h1, le4_rd version h2, le4_rd handle h3,
    Nat.mod_eq_of_lt h4, Nat.mod_eq_of_lt h5, le4_rd capabilities h6,
    le4_rd flags h7, Nat.mod_eq_of_lt h8, le4_rd s_text h9,
    le4_rd text_size h10, le4_rd s_got h11, le4_rd got_size h12,
    le4_rd rodata_size h13, le4_rd data_size h14, le4_rd bss_size h15,
    le4_rd heap_size h16, le4_rd s_svcexchange h17, le2_rd stack_size h18,
    le2_rd entrypoint_offset h19, le2_rd finalize_offset h20,
    Nat.mod_eq_of_lt h21, words4_rd shms h22 h23, Nat.mod_eq_of_lt h24,
    words4_rd devs h25 h26, Nat.mod_eq_of_lt h27, words4_rd dmas h28 h29,
    bytes32_rd task_hmac h30 h31, bytes32_rd metadata_hmac h32 h33⟩

set_option maxHeartbeats 2000000 in
set_option maxRecDepth 8192 in
/-- C2: for every well-formed `TaskMeta` record `m`, `pack m` produces a byte
string of one fixed length — 200 bytes, the same for every record, a multiple
of 8 — in which every reserved padding byte (`pad1`, `pad2`, `pad3`, `pad4`,
`pad5`, `pad6`) is zero, and `unpack (pack m)` reproduces every field of `m`
exactly; unpacking any byte string shorter than that fixed length fails. -/
theorem taskmeta_pack_spec (m : TaskMeta) (hm : m.WF) (bs : List Nat)
    (hbs : bs.length < 200) :
    (TaskMeta.pack m).length = 200 ∧
    8 ∣ (TaskMeta.pack m).length ∧
    (∀ i ∈ pad_offsets, (TaskMeta.pack m).getD i 0 = 0) ∧
    TaskMeta.unpack (TaskMeta.pack m) = some m ∧
    TaskMeta.unpack bs = none := by
  refine ⟨pack_length m, by rw [pack_length]; decide, ?_, unpack_pack m hm, ?_⟩
  · intro i hi
    simp only [pad_offsets, List.mem_cons, List.not_mem_nil, or_false] at hi
    simp only [TaskMeta.pack, le8, le4, le2, words4, bytes32, List.cons_append,
      List.nil_append]
    rcases hi with rfl | rfl | rfl | rfl | rfl | rfl | rfl | rfl | rfl | rfl |
      rfl | rfl | rfl | rfl | rfl | rfl <;> rfl
  · unfold TaskMeta.unpack
    rw [if_pos hbs]

/-- Concrete `TaskMeta` record used as the C2 witness input. -/
def task_meta_example : TaskMeta :=
  { magic := 0xdeadbeefcafe0123, version := 1, handle := 0x1fffe000,
    priority := 3, quantum := 7, capabilities := 0, flags := 5, domain := 0,
    s_text := 0x8000, text_size := 0x400, s_got := 0x20000010, got_size := 0x10,
    rodata_size := 0, data_size := 0x20, bss_size := 0x30, heap_size := 0x100,
    s_svcexchange := 0x20000000, stack_size := 0x200, entrypoint_offset := 8,
    finalize_offset := 0, num_shm := 0, shms := [1, 2, 3, 4], num_dev := 0,
    devs := [0, 0, 0, 0], num_dma := 0, dmas := [0, 0, 0, 0],
    task_hmac := List.replicate 32 0, metadata_hmac := List.replicate 32 0 }

/-- Witness for C2 at a concrete record and the empty (truncated) buffer. -/
theorem taskmeta_pack_spec_witness :
    (TaskMeta.pack task_meta_example).length = 200 ∧
    (TaskMeta.pack task_meta_example).getD 18 0 = 0 ∧
    TaskMeta.unpack (TaskMeta.pack task_meta_example) = some task_meta_example ∧
    TaskMeta.unpack [] = none := by
  have h := taskmeta_pack_spec task_meta_example (by decide) [] (by decide)
  exact ⟨h.1, h.2.2.1 18 (by decide), h.2.2.2.1, h.2.2.2.2⟩

/-- Inputs `_generate_task_meta_table` reads for one application: the embedded
`task` package-metadata values (already converted from their hex/decimal string
encodings), the per-section infos from the relocated ELF, and the
`random.getrandbits(16)` draw used for the handle id.  `exit_enabled m` is the
truthiness of the `exit_<m>` metadata key (false when absent, matching the
`try/except` around the lookup). -/
structure AppMetaInput where
  magic_value : Nat
  handle_id : Nat
  priority : Nat
  quantum : Nat
  auto_start : Bool
  exit_enabled : ExitMode → Bool
  s_text : Nat
  text_size : Nat
  ARM_size : Nat
  s_got : Nat
  got_size : Nat
  s_svcexchange : Nat
  data_size : Nat
  bss_size : Nat
  heap_size : Nat
  stack_size : Nat
  entrypoint_offset : Nat

/-- The `for mode in EXIT_MODES` loop of `_generate_task_meta_table`: the first
exit mode whose `exit_<mode>` metadata key is enabled, if any (the loop breaks
after the first hit, and leaves the flags untouched when none is enabled). -/
def first_enabled_exit (enabled : ExitMode → Bool) : Option ExitMode :=
  [ExitMode.norestart, ExitMode.restart, ExitMode.panic, ExitMode.periodic,
    ExitMode.reset].find? enabled

/-- One iteration of `_generate_task_meta_table`
(`src/pyledger/outpost/relocation/relocate.py`, lines 73-117): `TaskMeta()`
starts zero-initialised and only the listed fields are assigned; every other
field keeps its zero default.  `rodata_size` is commented out in the source,
`finalize_offset` is a TODO, `capabilities` is assigned the placeholder 0, and
the shared-memory/device/DMA counts, their id arrays and both HMAC digests are
never touched. -/
def generate_task_meta (a : AppMetaInput) : TaskMeta :=
  { magic := a.magic_value
    version := 1
    handle := taskhandle_set_id 0 a.handle_id
    priority := a.priority
    quantum := a.quantum
    capabilities := 0
    flags :=
      match first_enabled_exit a.exit_enabled with
      | some mode => jobflags_set_exit_mode (jobflags_set_autostart 0 a.auto_start) mode
      | none => jobflags_set_autostart 0 a.auto_start
    domain := 0
    s_text := a.s_text
    text_size := align_to a.text_size 4 + align_to a.ARM_size 4
    s_got := a.s_got
    got_size := a.got_size
    rodata_size := 0
    data_size := a.data_size
    bss_size := a.bss_size
    heap_size := a.heap_size
    s_svcexchange := a.s_svcexchange
    stack_size := a.stack_size
    entrypoint_offset := a.entrypoint_offset
    finalize_offset := 0
    num_shm := 0
    shms := [0, 0, 0, 0]
    num_dev := 0
    devs := [0, 0, 0, 0]
    num_dma := 0
    dmas := [0, 0, 0, 0]
    task_hmac := List.replicate 32 0
    metadata_hmac := List.replicate 32 0 }

set_option maxHeartbeats 2000000 in
set_option maxRecDepth 8192 in
/-- C10: in every task-metadata record emitted by the metadata generator, the
fields the generator leaves at their defaults are zero in the packed bytes:
`capabilities` (bytes 20-23), `rodata_size` (bytes 48-51), `finalize_offset`
(bytes 72-73), `num_shm`/`shms` (74, 76-91), `num_dev`/`devs` (92, 96-111),
`num_dma`/`dmas` (112, 116-131), `task_hmac` (132-163) and `metadata_hmac`
(164-195) — for every application input. -/
theorem generated_meta_zero_fields (a : AppMetaInput) :
    ((TaskMeta.pack (generate_task_meta a)).drop 20).take 4 = [0, 0, 0, 0] ∧
    ((TaskMeta.pack (generate_task_meta a)).drop 48).take 4 = [0, 0, 0, 0] ∧
    ((TaskMeta.pack (generate_task_meta a)).drop 72).take 2 = [0, 0] ∧
    ((TaskMeta.pack (generate_task_meta a)).drop 74).take 1 = [0] ∧
    ((TaskMeta.pack (generate_task_meta a)).drop 76).take 16 = List.replicate 16 0 ∧
    ((TaskMeta.pack (generate_task_meta a)).drop 92).take 1 = [0] ∧
    ((TaskMeta.pack (generate_task_meta a)).drop 96).take 16 = List.replicate 16 0 ∧
    ((TaskMeta.pack (generate_task_meta a)).drop 112).take 1 = [0] ∧
    ((TaskMeta.pack (generate_task_meta a)).drop 116).take 16 = List.replicate 16 0 ∧
    ((TaskMeta.pack (generate_task_meta a)).drop 132).take 32 = List.replicate 32 0 ∧
    ((TaskMeta.pack (generate_task_meta a)).drop 164).take 32 = List.replicate 32 0 := by
  simp only [generate_task_meta, TaskMeta.pack, le8, le4, le2, words4, bytes32,
    List.cons_append, List.nil_append]
  exact ⟨rfl, rfl, rfl, rfl, rfl, rfl, rfl, rfl, rfl, rfl, rfl⟩

/-- JSON values, the subset produced by `json.dump` for the memory-layout
document; object fields keep the dict insertion order, which `json.dump`
preserves. -/
inductive Json
  | str : String → Json
  | num : Nat → Json
  | arr : List Json → Json
  | obj : List (String × Json) → Json

/-- Serialization of one `MemoryRegion`: `MemoryRegion.__init__`
(`src/pyledger/outpost/utils/memory_layout.py`) fills the underlying
`UserDict` with exactly the keys "name", "start_addr" and "size", in that
insertion order, and the custom JSON encoder dumps that dict unchanged (the
Python object has no kind/type entry; the embedding's `kind` tag is not
serialized). -/
def region_to_json (r : MemoryRegion) : Json :=
  .obj [("name", .str r.name), ("start_addr", .num r.start_addr),
        ("size", .num r.size)]

/-- `MemoryLayout.save_as_json`: the layout is dumped as the JSON array of its
regions, in list (placement) order. -/
def layout_to_json (l : List MemoryRegion) : Json :=
  .arr (l.map region_to_json)

/-- Keys of a serialized JSON object, in serialization order. -/
def Json.objKeys : Json → List String
  | .obj l => l.map Prod.fst
  | _ => []

/-- C9 counterexample: a serialized region's fields are "name", "start_addr"
and "size" — there is no "type" discriminator and the address key is
"start_addr", not "start_address", so the claimed field set is wrong. -/
theorem memory_layout_json_counterexample :
    Json.objKeys (region_to_json ⟨"app1 text", .text, 0x8000, 0x1000⟩)
        = ["name", "start_addr", "size"] ∧
    (["name", "start_addr", "size"] : List String)
        ≠ ["name", "type", "start_address", "size"] := by
  constructor
  · rfl
  · decide

/-- C9 amended: serializing a memory layout produces a JSON array, in placement
order, of objects whose fields are exactly "name", "start_addr" and "size"
(there is no "type" field; the kind is only part of the region name text). -/
theorem memory_layout_json_amended (l : List MemoryRegion) (r : MemoryRegion) :
    layout_to_json l = Json.arr (l.map region_to_json) ∧
    Json.objKeys (region_to_json r) = ["name", "start_addr", "size"] :=
  ⟨rfl, rfl⟩

/-- One entry of the ELF symbol table: name and value (address).  Values are
integers since displacement arithmetic can be negative. -/
structure ElfSymbol where
  name : String
  value : Int
deriving DecidableEq

/-- In-memory representation of an application ELF as `AppElf.relocate` uses
it (`src/pyledger/outpost/relocation/elfutils.py`): the virtual address and
size of each of the fixed flash sections (`.text`, `.ARM`) and RAM sections
(`.svcexchange`, `.got`, `.data`, `.bss`), the symbol table, and the raw
`.got` content bytes.  The addresses on the record are the current ones;
`relocate` reads them as `_prev_sections` (captured before any mutation). -/
structure AppElf where
  text_addr : Int
  text_size : Nat
  arm_addr : Int
  arm_size : Nat
  svc_addr : Int
  svc_size : Nat
  got_addr : Int
  got_size : Nat
  data_addr : Int
  data_size : Nat
  bss_addr : Int
  bss_size : Nat
  symbols : List ElfSymbol
  got_content : List Nat
deriving DecidableEq

/-- `lief` symbol lookup by name (first match); `None` when the symbol is
absent, in which case the Python code raises. -/
def get_symbol (syms : List ElfSymbol) (n : String) : Option Int :=
  (syms.find? (fun s => s.name == n)).map ElfSymbol.value

/-- Body of the `for sym in self._elf.symbols` loop of `_symtab_fixup`: pick
the flash offset when the value lies in `[s_rom, e_rom]`, else the RAM offset
when it lies in `[s_ram, e_ram]`, else 0 — and apply it only when it is
strictly positive. -/
def fixup_symbol (s_rom e_rom rom_offset s_ram e_ram ram_offset : Int)
    (sym : ElfSymbol) : ElfSymbol :=
  let offset : Int :=
    if s_rom ≤ sym.value ∧ sym.value ≤ e_rom then rom_offset
    else if s_ram ≤ sym.value ∧ sym.value ≤ e_ram then ram_offset
    else 0
  if 0 < offset then { sym with value := sym.value + offset } else sym

/-- `addr.to_bytes(4, "little")`.  Defined via `Int.toNat`; Python raises
`OverflowError` outside `[0, 2^32)`, and every theorem below stays in that
range. -/
def int_to_bytes4 (w : Int) : List Nat :=
  [w.toNat % 256, w.toNat / 256 % 256, w.toNat / 65536 % 256,
   w.toNat / 16777216 % 256]

/-- One word of the `_got_fixup` loop body: `int.from_bytes` has already
produced `w`; add `ram_offset` when the word lies in `[s_ram, e_ram]`. -/
def got_patch_word (s_ram e_ram ram_offset : Int) (w : Nat) : Int :=
  if s_ram ≤ (w : Int) ∧ (w : Int) ≤ e_ram then (w : Int) + ram_offset
  else (w : Int)

/-- `_got_fixup`'s scan loop (`for i in range(0, len(got.content), 4)`): walk
the GOT content in 4-byte little-endian words, patch each in-range word by the
RAM displacement, and re-emit every (possibly patched) word as 4 little-endian
bytes.  The chunking of the Python loop is unrolled into the match patterns;
the trailing patterns mirror `int.from_bytes` on a final chunk of fewer than 4
bytes, which the loop still writes back as 4 bytes. -/
def got_fixup (s_ram e_ram ram_offset : Int) : List Nat → List Nat
  | b0 :: b1 :: b2 :: b3 :: rest =>
    int_to_bytes4 (got_patch_word s_ram e_ram ram_offset
        (b0 + 256 * b1 + 65536 * b2 + 16777216 * b3)) ++
      got_fixup s_ram e_ram ram_offset rest
  | [] => []
  | [b0] => int_to_bytes4 (got_patch_word s_ram e_ram ram_offset b0)
  | [b0, b1] => int_to_bytes4 (got_patch_word s_ram e_ram ram_offset (b0 + 256 * b1))
  | [b0, b1, b2] =>
    int_to_bytes4 (got_patch_word s_ram e_ram ram_offset
      (b0 + 256 * b1 + 65536 * b2))

/-- Little-endian 4-byte word decoding of a GOT content buffer, dropping any
ragged tail: the decoded words, in buffer order. -/
def got_words : List Nat → List Int
  | b0 :: b1 :: b2 :: b3 :: rest =>
    ((b0 + 256 * b1 + 65536 * b2 + 16777216 * b3 : Nat) : Int) :: got_words rest
  | _ => []

/-- `AppElf.relocate(srom, sram)`: reassign the flash sections sequentially
from `srom` (`.text`, then `.ARM`), the RAM sections sequentially from `sram`
(`.svcexchange`, `.got`, `.data`, `.bss`), then run `_symtab_fixup` (flash
range `[original .text address, original _erom value]` with the flash
displacement, RAM range `[original .svcexchange address, original _sheap
value]` with the RAM displacement, each applied only when positive), then
`_got_fixup` — whose RAM-range upper bound re-reads `_sheap` from the
already-rewritten symbol table — and finally `_segment_fixup`, which requires
`_sigot` to resolve.  Returns `none` when a required symbol is missing (the
Python code raises). -/
def relocate (e : AppElf) (srom sram : Int) : Option AppElf :=
  match get_symbol e.symbols "_erom", get_symbol e.symbols "_sheap" with
  | some e_rom, some e_ram =>
    let s_rom := e.text_addr
    let rom_offset := srom - s_rom
    let s_ram := e.svc_addr
    let ram_offset := sram - s_ram
    let symbols2 :=
      e.symbols.map (fixup_symbol s_rom e_rom rom_offset s_ram e_ram ram_offset)
    match get_symbol symbols2 "_sheap", get_symbol symbols2 "_sigot" with
    | some e_ram2, some _ =>
      some { e with
        text_addr := srom,
        arm_addr := srom + e.text_size,
        svc_addr := sram,
        got_addr := sram + e.svc_size,
        data_addr := sram + e.svc_size + e.got_size,
        bss_addr := sram + e.svc_size + e.got_size + e.data_size,
        symbols := symbols2,
        got_content := got_fixup s_ram e_ram2 ram_offset e.got_content }
    | _, _ => none
  | _, _ => none

theorem relocate_some_elim (e : AppElf) (srom sram : Int) (e2 : AppElf)
    (e_rom e_ram : Int)
    (herom : get_symbol e.symbols "_erom" = some e_rom)
    (hsheap : get_symbol e.symbols "_sheap" = some e_ram)
    (hrel : relocate e srom sram = some e2) :
    e2.symbols = e.symbols.map
      (fixup_symbol e.text_addr e_rom (srom - e.text_addr) e.svc_addr e_ram
        (sram - e.svc_addr)) ∧
    ∀ e_ram2, get_symbol e2.symbols "_sheap" = some e_ram2 →
      e2.got_content =
        got_fixup e.svc_addr e_ram2 (sram - e.svc_addr) e.got_content := by
  unfold relocate at hrel
  rw [herom, hsheap] at hrel
  simp only at hrel
  cases hA : get_symbol
      (e.symbols.map (fixup_symbol e.text_addr e_rom (srom - e.text_addr)
        e.svc_addr e_ram (sram - e.svc_addr))) "_sheap" with
  | none => rw [hA] at hrel; simp at hrel
  | some x =>
    cases hB : get_symbol
        (e.symbols.map (fixup_symbol e.text_addr e_rom (srom - e.text_addr)
          e.svc_addr e_ram (sram - e.svc_addr))) "_sigot" with
    | none => rw [hA, hB] at hrel; simp at hrel
    | some y =>
      rw [hA, hB] at hrel
      simp only [Option.some.injEq] at hrel
      subst hrel
      refine ⟨rfl, ?_⟩
      intro e_ram2 h2
      simp only at h2
      rw [hA] at h2
      simp only [Option.some.injEq] at h2
      subst h2
      rfl

theorem fixup_symbol_value (s_rom e_rom ro s_ram e_ram ra : Int)
    (hro : 0 ≤ ro) (hra : 0 ≤ ra) (sym : ElfSymbol) :
    (fixup_symbol s_rom e_rom ro s_ram e_ram ra sym).name = sym.name ∧
    (fixup_symbol s_rom e_rom ro s_ram e_ram ra sym).value =
      (if s_rom ≤ sym.value ∧ sym.value ≤ e_rom then sym.value + ro
       else if s_ram ≤ sym.value ∧ sym.value ≤ e_ram then sym.value + ra
       else sym.value) := by
  simp only [fixup_symbol]
  by_cases hf : s_rom ≤ sym.value ∧ sym.value ≤ e_rom
  · simp only [if_pos hf]
    by_cases ho : (0 : Int) < ro
    · rw [if_pos ho]
      exact ⟨rfl, rfl⟩
    · rw [if_neg ho]
      refine ⟨rfl, ?_⟩
      omega
  · simp only [if_neg hf]
    by_cases hr : s_ram ≤ sym.value ∧ sym.value ≤ e_ram
    · simp only [if_pos hr]
      by_cases ho : (0 : Int) < ra
      · rw [if_pos ho]
        exact ⟨rfl, rfl⟩
      · rw [if_neg ho]
        refine ⟨rfl, ?_⟩
        omega
    · simp only [if_neg hr]
      rw [if_neg (by omega : ¬ (0 : Int) < 0)]
      exact ⟨rfl, rfl⟩

/-- C3 amended: after `relocate(new_flash_start, new_ram_start)` on an
application ELF, **provided both displacements are nonnegative**: every symbol
whose original value `v` lies within the original flash range (original `.text`
address `≤ v ≤` original `_erom` value) has new value `v` plus the flash
displacement; every symbol whose original value lies within the original RAM
range (original `.svcexchange` address `≤ v ≤` original `_sheap` value) and
not in the flash range has new value `v` plus the RAM displacement; every
other symbol keeps its original value.  (The code applies an adjustment only
when the computed displacement is strictly positive, so with a negative
displacement in-range symbols keep their original values, contradicting the
claim as stated — see the counterexample.) -/
theorem symtab_fixup_spec (e e2 : AppElf) (srom sram : Int)
    (e_rom e_ram : Int)
    (herom : get_symbol e.symbols "_erom" = some e_rom)
    (hsheap : get_symbol e.symbols "_sheap" = some e_ram)
    (hrel : relocate e srom sram = some e2)
    (hrom : e.text_addr ≤ srom) (hram : e.svc_addr ≤ sram) :
    e2.symbols.length = e.symbols.length ∧
    ∀ i (h1 : i < e.symbols.length) (h2 : i < e2.symbols.length),
      (e2.symbols.get ⟨i, h2⟩).name = (e.symbols.get ⟨i, h1⟩).name ∧
      (e2.symbols.get ⟨i, h2⟩).value =
        (if e.text_addr ≤ (e.symbols.get ⟨i, h1⟩).value ∧
            (e.symbols.get ⟨i, h1⟩).value ≤ e_rom then
          (e.symbols.get ⟨i, h1⟩).value + (srom - e.text_addr)
        else if e.svc_addr ≤ (e.symbols.get ⟨i, h1⟩).value ∧
            (e.symbols.get ⟨i, h1⟩).value ≤ e_ram then
          (e.symbols.get ⟨i, h1⟩).value + (sram - e.svc_addr)
        else (e.symbols.get ⟨i, h1⟩).value) := by
  obtain ⟨hsyms, -⟩ := relocate_some_elim e srom sram e2 e_rom e_ram herom hsheap hrel
  constructor
  · rw [hsyms]; simp
  · intro i h1 h2
    simp only [hsyms, List.get_eq_getElem, List.getElem_map] at h2 ⊢
    exact fixup_symbol_value e.text_addr e_rom (srom - e.text_addr) e.svc_addr
      e_ram (sram - e.svc_addr) (by omega) (by omega) (e.symbols.get ⟨i, h1⟩)

/-- Application ELF used for the C3 counterexample: relocation moves flash
down (from 0x2000 to 0x1000), making the flash displacement negative. -/
def ce_app : AppElf :=
  { text_addr := 0x2000, text_size := 0x100, arm_addr := 0x2100, arm_size := 0,
    svc_addr := 0x10000, svc_size := 0x10, got_addr := 0x10010, got_size := 8,
    data_addr := 0x10018, data_size := 8, bss_addr := 0x10020, bss_size := 8,
    symbols := [⟨"_erom", 0x2200⟩, ⟨"_sheap", 0x10100⟩, ⟨"_sigot", 0x10010⟩,
                ⟨"app_sym", 0x2080⟩],
    got_content := [] }

/-- C3 counterexample: `ce_app`'s symbol `app_sym` (value 0x2080) lies within
the original flash range [0x2000, 0x2200], and the flash displacement is
0x1000 − 0x2000 = −0x1000; the claim says its new value is
0x2080 + (−0x1000) = 0x1080, but after `relocate ce_app 0x1000 0x20000` the
code leaves it at 0x2080 because it only applies strictly positive offsets. -/
theorem symtab_fixup_counterexample :
    ce_app.text_addr ≤ 0x2080 ∧ (0x2080 : Int) ≤ 0x2200 ∧
    ((relocate ce_app 0x1000 0x20000).map
        (fun e2 => get_symbol e2.symbols "app_sym")) = some (some 0x2080) ∧
    (0x2080 : Int) ≠ 0x2080 + (0x1000 - ce_app.text_addr) := by
  refine ⟨by decide, by decide, rfl, by decide⟩

/-- Application ELF used as the C3/C4 witness input (positive flash and RAM
displacements; a GOT with one in-range and one out-of-range word). -/
def witness_app : AppElf :=
  { text_addr := 0x1000, text_size := 0x100, arm_addr := 0x1100, arm_size := 0x10,
    svc_addr := 0x10000, svc_size := 0x10, got_addr := 0x10010, got_size := 8,
    data_addr := 0x10018, data_size := 8, bss_addr := 0x10020, bss_size := 8,
    symbols := [⟨"_erom", 0x1200⟩, ⟨"_sheap", 0x10100⟩, ⟨"_sigot", 0x10010⟩,
                ⟨"app_sym", 0x1080⟩, ⟨"ram_sym", 0x10050⟩, ⟨"ext_sym", 0x9999999⟩],
    got_content := [0x50, 0x00, 0x01, 0x00, 0x78, 0x56, 0x00, 0x00] }

/-- Result of `relocate witness_app 0x2000 0x20000`, written out in full. -/
def witness_app_relocated : AppElf :=
  { text_addr := 0x2000, text_size := 0x100, arm_addr := 0x2100, arm_size := 0x10,
    svc_addr := 0x20000, svc_size := 0x10, got_addr := 0x20010, got_size := 8,
    data_addr := 0x20018, data_size := 8, bss_addr := 0x20020, bss_size := 8,
    symbols := [⟨"_erom", 0x2200⟩, ⟨"_sheap", 0x20100⟩, ⟨"_sigot", 0x20010⟩,
                ⟨"app_sym", 0x2080⟩, ⟨"ram_sym", 0x20050⟩, ⟨"ext_sym", 0x9999999⟩],
    got_content := [0x50, 0x00, 0x02, 0x00, 0x78, 0x56, 0x00, 0x00] }

/-- Witness for C3: the flash symbol `app_sym` of `witness_app` (index 3)
moves by the flash displacement under `relocate witness_app 0x2000 0x20000`. -/
theorem symtab_fixup_spec_witness :
    witness_app_relocated.symbols.length = witness_app.symbols.length ∧
    (witness_app_relocated.symbols.get ⟨3, by decide⟩).value = 0x2080 := by
  have h := symtab_fixup_spec witness_app witness_app_relocated 0x2000 0x20000
    0x1200 0x10100 rfl rfl rfl (by decide) (by decide)
  refine ⟨h.1, ?_⟩
  have h2 := (h.2 3 (by decide) (by decide)).2
  rw [h2]
  decide

theorem got_words_encode_cons (w : Int) (h0 : 0 ≤ w) (h1 : w < 4294967296)
    (t : List Nat) :
    got_words (int_to_bytes4 w ++ t) = w :: got_words t := by
  simp only [int_to_bytes4, List.cons_append, List.nil_append, got_words]
  congr 1
  have hlt : w.toNat < 4294967296 := by omega
  have h2 : w.toNat % 256 + 256 * (w.toNat / 256 % 256) +
      65536 * (w.toNat / 65536 % 256) + 16777216 * (w.toNat / 16777216 % 256)
      = w.toNat := by omega
  rw [h2]
  exact Int.toNat_of_nonneg h0

theorem got_fixup_spec (s e off : Int) :
    ∀ (n : Nat) (l : List Nat), l.length ≤ n → 4 ∣ l.length →
      (∀ b ∈ l, b < 256) →
      (∀ w ∈ got_words l, s ≤ w ∧ w ≤ e → 0 ≤ w + off ∧ w + off < 4294967296) →
      (got_fixup s e off l).length = l.length ∧
      got_words (got_fixup s e off l) =
        (got_words l).map (fun w => if s ≤ w ∧ w ≤ e then w + off else w) := by
  intro n
  induction n with
  | zero =>
    intro l hl h4 hb hfit
    have hnil : l = [] := List.length_eq_zero.mp (by omega)
    subst hnil
    simp [got_fixup, got_words]
  | succ n ih =>
    intro l hl h4 hb hfit
    rcases l with _ | ⟨b0, _ | ⟨b1, _ | ⟨b2, _ | ⟨b3, rest⟩⟩⟩⟩
    · simp [got_fixup, got_words]
    · exfalso; simp only [List.length_cons, List.length_nil] at h4; omega
    · exfalso; simp only [List.length_cons, List.length_nil] at h4; omega
    · exfalso; simp only [List.length_cons, List.length_nil] at h4; omega
    · have hb0 := hb b0 (by simp)
      have hb1 := hb b1 (by simp)
      have hb2 := hb b2 (by simp)
      have hb3 := hb b3 (by simp)
      have hwlt : b0 + 256 * b1 + 65536 * b2 + 16777216 * b3 < 4294967296 := by
        omega
      obtain ⟨ihlen, ihwords⟩ := ih rest
        (by simp only [List.length_cons] at hl; omega)
        (by simp only [List.length_cons] at h4; omega)
        (fun b hbm => hb b (by simp [hbm]))
        (fun w hw hr => hfit w
          (by simp only [got_words]; exact List.mem_cons_of_mem _ hw) hr)
      have hw : ((b0 + 256 * b1 + 65536 * b2 + 16777216 * b3 : Nat) : Int)
          ∈ got_words (b0 :: b1 :: b2 :: b3 :: rest) := by
        simp only [got_words]
        exact List.mem_cons_self _ _
      have hpatch :
          0 ≤ got_patch_word s e off (b0 + 256 * b1 + 65536 * b2 + 16777216 * b3) ∧
          got_patch_word s e off (b0 + 256 * b1 + 65536 * b2 + 16777216 * b3)
            < 4294967296 := by
        unfold got_patch_word
        by_cases hin : s ≤ ((b0 + 256 * b1 + 65536 * b2 + 16777216 * b3 : Nat) : Int) ∧
            ((b0 + 256 * b1 + 65536 * b2 + 16777216 * b3 : Nat) : Int) ≤ e
        · rw [if_pos hin]
          exact hfit _ hw hin
        · rw [if_neg hin]
          constructor
          · exact Int.natCast_nonneg _
          · exact_mod_cast hwlt
      constructor
      · simp only [got_fixup, List.length_append, int_to_bytes4, List.length_cons,
          List.length_nil, ihlen]
        omega
      · simp only [got_fixup]
        rw [got_words_encode_cons _ hpatch.1 hpatch.2, ihwords]
        simp only [got_words, List.map_cons]
        congr 1

/-- C4 amended: after `relocate`, the GOT section content is replaced by a byte
string of the same length, obtained by scanning the original content in 4-byte
little-endian words in order: each word whose value lies in the range from the
original `.svcexchange` address up to **the post-symbol-fixup value of
`_sheap`** (not the original `_sheap` value: `_got_fixup` runs after
`_symtab_fixup` has already moved `_sheap` by the RAM displacement when that
displacement is positive) is incremented by the RAM displacement, every other
word is unchanged, and word order is preserved.  The bounds hypothesis keeps
each patched word inside 32 bits, where Python's `int.to_bytes(4)` is
defined. -/
theorem got_fixup_correct (e e2 : AppElf) (srom sram : Int) (e_rom e_ram : Int)
    (herom : get_symbol e.symbols "_erom" = some e_rom)
    (hsheap : get_symbol e.symbols "_sheap" = some e_ram)
    (hrel : relocate e srom sram = some e2)
    (e_ram2 : Int)
    (hsheap2 : get_symbol e2.symbols "_sheap" = some e_ram2)
    (h4 : 4 ∣ e.got_content.length)
    (hb : ∀ b ∈ e.got_content, b < 256)
    (hfit : ∀ w ∈ got_words e.got_content, e.svc_addr ≤ w ∧ w ≤ e_ram2 →
      0 ≤ w + (sram - e.svc_addr) ∧ w + (sram - e.svc_addr) < 4294967296) :
    e2.got_content.length = e.got_content.length ∧
    got_words e2.got_content = (got_words e.got_content).map
      (fun w => if e.svc_addr ≤ w ∧ w ≤ e_ram2 then w + (sram - e.svc_addr)
                else w) := by
  obtain ⟨-, hgot⟩ := relocate_some_elim e srom sram e2 e_rom e_ram herom hsheap hrel
  rw [hgot e_ram2 hsheap2]
  exact got_fixup_spec e.svc_addr e_ram2 (sram - e.svc_addr)
    e.got_content.length e.got_content (le_refl _) h4 hb hfit

/-- Witness for C4: relocating `witness_app` patches its in-range GOT word
0x10050 to 0x20050 and leaves the out-of-range word 0x5678 unchanged. -/
theorem got_fixup_correct_witness :
    witness_app_relocated.got_content.length = witness_app.got_content.length ∧
    got_words witness_app_relocated.got_content = [0x20050, 0x5678] := by
  have h := got_fixup_correct witness_app witness_app_relocated 0x2000 0x20000
    0x1200 0x10100 rfl rfl rfl 0x20100 rfl (by decide) (by decide) (by decide)
  refine ⟨h.1, ?_⟩
  rw [h.2]
  decide

/-- Application ELF used for the C4 counterexample: its only GOT word 0x100A0
lies strictly above the original `_sheap` value 0x10080 but below the
post-fixup `_sheap` value. -/
def ce_got_app : AppElf :=
  { text_addr := 0x1000, text_size := 0x100, arm_addr := 0x1100, arm_size := 0,
    svc_addr := 0x10000, svc_size := 0x10, got_addr := 0x10010, got_size := 4,
    data_addr := 0x10014, data_size := 8, bss_addr := 0x1001C, bss_size := 8,
    symbols := [⟨"_erom", 0x1200⟩, ⟨"_sheap", 0x10080⟩, ⟨"_sigot", 0x10010⟩],
    got_content := [0xA0, 0x00, 0x01, 0x00] }

/-- C4 counterexample: `ce_got_app`'s single GOT word 0x100A0 lies outside the
original RAM range (its original `_sheap` value is 0x10080 < 0x100A0), so the
claim says it must stay unchanged; but `relocate ce_got_app 0x1000 0x20000`
(RAM displacement 0x10000) patches it to 0x200A0, because the code bounds the
range by the already-relocated `_sheap` value 0x20080. -/
theorem got_fixup_counterexample :
    got_words ce_got_app.got_content = [0x100A0] ∧
    get_symbol ce_got_app.symbols "_sheap" = some 0x10080 ∧
    ¬ ((0x100A0 : Int) ≤ 0x10080) ∧
    ((relocate ce_got_app 0x1000 0x20000).map
        (fun e2 => got_words e2.got_content)) = some [0x200A0] := by
  refine ⟨rfl, rfl, by decide, rfl⟩
